import Mathlib

set_option autoImplicit false
set_option maxHeartbeats 1000000

/-!
Shallow embedding of `src/wallet/hdkeystore.h` / `src/wallet/hdkeystore.cpp`
(class `CHDKeyStore`): an in-memory hierarchical-deterministic key store.

The two source files reference collaborators that live outside them:
the BIP32 elliptic-curve primitives (`CExtKey`, `CExtPubKey`, `CPubKey`
from `key.h` / `pubkey.h`), the seed encryption wrapper
(`EncryptSeed` / `DecryptSeed` / `IsCrypted` inherited from
`CCryptoKeyStore`), and the integer parser `ParseInt32` from
`utilstrencodings.h`.  Those are modelled abstractly below: opaque key
values are natural numbers and the primitives are fields of a
`CryptoEnv` record (or, for `ParseInt32`, a function written from the
spec's description).  Everything that IS in the two source files is
translated statement by statement.
-/

/-- ChainID: `typedef uint256 HDChainID` — a 256-bit identifier, modelled
as a natural number (opaque; only equality is used). -/
abbrev HDChainID := Nat

/-- CKeyingMaterial: a byte vector holding secret seed material. -/
abbrev CKeyingMaterial := List Nat

/-- CKeyID: 160-bit hash of a public key, modelled as a natural number. -/
abbrev CKeyID := Nat

/-- CPubKey: an EC public key, modelled as an opaque natural number. -/
abbrev CPubKey := Nat

/-- CExtKey: a BIP32 extended private key, modelled as an opaque natural
number; its operations come from `CryptoEnv`. -/
abbrev CExtKey := Nat

/-- CExtPubKey: a BIP32 extended public key, modelled as an opaque
natural number; its operations come from `CryptoEnv`. -/
abbrev CExtPubKey := Nat

/-- BIP32_EXTKEY_SIZE: the size in bytes of an encoded extended key. -/
def BIP32_EXTKEY_SIZE : Nat := 74

/-- Modelled from the spec: the collaborators of `CHDKeyStore` that are
not in the two source files.  `encryptSeed` / `decryptSeed` are the
encryption collaborator of §6 (`EncryptSeed(plain, chainID) → blob`,
`DecryptSeed(blob, chainID) → plain`, both fallible); `setMaster` is
BIP32 "master key from seed" (`CExtKey::SetMaster`); `decodeExt` decodes
a 74-byte buffer as an extended private key (`CExtKey::Decode`, total in
the source); `extPrivDerive` is private child-key derivation
(`CExtKey::Derive`, total in the source); `neuter` projects an extended
private key to its extended public key (`CExtKey::Neuter`);
`extPubDerive` is public CKD (`CExtPubKey::Derive`, fallible);
`extPubPubkey` reads the `.pubkey` field of an extended public key;
`pubkeyValid` is `CPubKey::IsValid`; `getID` is `CPubKey::GetID`. -/
structure CryptoEnv where
  encryptSeed : CKeyingMaterial → HDChainID → Option (List Nat)
  decryptSeed : List Nat → HDChainID → Option CKeyingMaterial
  setMaster : List Nat → CExtKey
  decodeExt : List Nat → CExtKey
  extPrivDerive : CExtKey → Nat → CExtKey
  neuter : CExtKey → CExtPubKey
  extPubDerive : CExtPubKey → Nat → Option CExtPubKey
  extPubPubkey : CExtPubKey → CPubKey
  pubkeyValid : CPubKey → Bool
  getID : CPubKey → CKeyID

/-- CHDPubKey (hdkeystore.h): an hd public key record.  The `nVersion`
field only feeds serialization, which is outside the modelled core, and
is omitted. -/
structure CHDPubKey where
  pubkey : CPubKey
  nChild : Nat
  chainID : HDChainID
  keypath : List Char
  internal : Bool
deriving DecidableEq

/-- CHDChain (hdkeystore.h): per-chain metadata.  `nVersion`,
`nCreateTime` and `usePubCKD` feed only serialization / `IsValid`, which
no modelled operation calls, and are omitted. -/
structure CHDChain where
  chainID : HDChainID
  keypathTemplate : List Char
  externalPubKey : CExtPubKey
  internalPubKey : CExtPubKey
deriving DecidableEq

/-- The state of a `CHDKeyStore`: its four member maps (each a `std::map`,
modelled as an association list with unique keys maintained by
`mapInsert`), plus the `IsCrypted()` flag inherited from
`CCryptoKeyStore` (outside the source files; modelled as a state bit
that no operation of this file changes). -/
structure CHDKeyStore where
  mapHDMasterSeeds : List (HDChainID × CKeyingMaterial)
  mapHDCryptedMasterSeeds : List (HDChainID × List Nat)
  mapHDPubKeys : List (CKeyID × CHDPubKey)
  mapChains : List (HDChainID × CHDChain)
  isCrypted : Bool
deriving DecidableEq

/-- Insert-or-overwrite, the semantics of `map[k] = v` on `std::map`. -/
def mapInsert {α : Type} (k : Nat) (v : α) : List (Nat × α) → List (Nat × α)
  | [] => [(k, v)]
  | (k0, v0) :: rest =>
      if k0 = k then (k, v) :: rest else (k0, v0) :: mapInsert k v rest

/-- Lookup, the semantics of `map.find(k)` on `std::map`. -/
def mapFind {α : Type} (k : Nat) : List (Nat × α) → Option α
  | [] => none
  | (k0, v0) :: rest => if k0 = k then some v0 else mapFind k rest

theorem mapFind_mapInsert_self {α : Type} (k : Nat) (v : α) (m : List (Nat × α)) :
    mapFind k (mapInsert k v m) = some v := by
  induction m with
  | nil => simp [mapInsert, mapFind]
  | cons p rest ih =>
      obtain ⟨k0, v0⟩ := p
      by_cases h : k0 = k <;> simp [mapInsert, mapFind, h, ih]

theorem mapFind_mapInsert_ne {α : Type} {k k0 : Nat} (v : α) (m : List (Nat × α))
    (h : k ≠ k0) : mapFind k0 (mapInsert k v m) = mapFind k0 m := by
  have hne : ¬ k = k0 := h
  induction m with
  | nil => simp [mapInsert, mapFind, hne]
  | cons p rest ih =>
      obtain ⟨k1, v1⟩ := p
      by_cases h1 : k1 = k
      · subst h1
        simp [mapInsert, mapFind, hne]
      · by_cases h2 : k1 = k0
        · subst h2
          simp [mapInsert, mapFind, h1]
        · simp [mapInsert, mapFind, h1, h2, ih]

/-- CHDKeyStore::AddMasterSeed (hdkeystore.cpp:14).  Returns the `bool`
result paired with the store after the call. -/
def AddMasterSeed (env : CryptoEnv) (st : CHDKeyStore) (chainID : HDChainID)
    (masterSeed : CKeyingMaterial) : Bool × CHDKeyStore :=
  if st.isCrypted then
    match env.encryptSeed masterSeed chainID with
    | none => (false, st)
    | some vchCryptedSecret =>
        (true, { st with mapHDCryptedMasterSeeds :=
                   mapInsert chainID vchCryptedSecret st.mapHDCryptedMasterSeeds })
  else
    (true, { st with mapHDMasterSeeds := mapInsert chainID masterSeed st.mapHDMasterSeeds })

/-- CHDKeyStore::AddCryptedMasterSeed (hdkeystore.cpp:30): unconditional
insert into the crypted map. -/
def AddCryptedMasterSeed (st : CHDKeyStore) (chainID : HDChainID)
    (vchCryptedSecret : List Nat) : Bool × CHDKeyStore :=
  (true, { st with mapHDCryptedMasterSeeds :=
             mapInsert chainID vchCryptedSecret st.mapHDCryptedMasterSeeds })

/-- CHDKeyStore::GetMasterSeed (hdkeystore.cpp:37).  The `bool` result
plus out-parameter is modelled as an `Option`. -/
def GetMasterSeed (env : CryptoEnv) (st : CHDKeyStore) (chainID : HDChainID) :
    Option CKeyingMaterial :=
  if st.isCrypted = false then
    mapFind chainID st.mapHDMasterSeeds
  else
    match mapFind chainID st.mapHDCryptedMasterSeeds with
    | none => none
    | some vchCryptedSecret => env.decryptSeed vchCryptedSecret chainID

/-- Loop of CHDKeyStore::EncryptSeeds (hdkeystore.cpp:67-73): wrap each
plaintext entry in turn and insert it into the crypted map via
`AddCryptedMasterSeed`; on the first wrap failure return `false` with the
crypted insertions made so far kept (the C++ `return false` leaves them
in the member map). -/
def encryptSeedsLoop (env : CryptoEnv) :
    List (HDChainID × CKeyingMaterial) → List (HDChainID × List Nat) →
    Bool × List (HDChainID × List Nat)
  | [], crypted => (true, crypted)
  | (chainID, seed) :: rest, crypted =>
      match env.encryptSeed seed chainID with
      | none => (false, crypted)
      | some vchCryptedSecret =>
          encryptSeedsLoop env rest (mapInsert chainID vchCryptedSecret crypted)

/-- CHDKeyStore::EncryptSeeds (hdkeystore.cpp:64): wrap every plaintext
seed; only on full success is the plaintext map cleared. -/
def EncryptSeeds (env : CryptoEnv) (st : CHDKeyStore) : Bool × CHDKeyStore :=
  match encryptSeedsLoop env st.mapHDMasterSeeds st.mapHDCryptedMasterSeeds with
  | (true, crypted) =>
      (true, { st with mapHDMasterSeeds := [], mapHDCryptedMasterSeeds := crypted })
  | (false, crypted) =>
      (false, { st with mapHDCryptedMasterSeeds := crypted })

/-- CHDKeyStore::GetCryptedMasterSeed (hdkeystore.cpp:78): fails when the
store is not crypted, else looks up the crypted map. -/
def GetCryptedMasterSeed (st : CHDKeyStore) (chainID : HDChainID) : Option (List Nat) :=
  if st.isCrypted = false then none
  else mapFind chainID st.mapHDCryptedMasterSeeds

/-- CHDKeyStore::LoadHDPubKey (hdkeystore.cpp:101): insert the record
into the catalog under `pubkey.GetID()`. -/
def LoadHDPubKey (env : CryptoEnv) (st : CHDKeyStore) (pk : CHDPubKey) :
    Bool × CHDKeyStore :=
  (true, { st with mapHDPubKeys := mapInsert (env.getID pk.pubkey) pk st.mapHDPubKeys })

/-- CHDKeyStore::AddChain (hdkeystore.cpp:284): upsert keyed by the
chain's own `chainID`. -/
def AddChain (st : CHDKeyStore) (chain : CHDChain) : Bool × CHDKeyStore :=
  (true, { st with mapChains := mapInsert chain.chainID chain st.mapChains })

/-- CHDKeyStore::GetChain (hdkeystore.cpp:291). -/
def GetChain (st : CHDKeyStore) (chainID : HDChainID) : Option CHDChain :=
  mapFind chainID st.mapChains

/-- Semantics of `boost::split(pathFragments, keypath, boost::is_any_of("/"))`:
split on every `'/'`; the empty string yields one empty fragment, adjacent
or trailing separators yield empty fragments.  The result is never `[]`. -/
def splitPath : List Char → List (List Char)
  | [] => [[]]
  | ch :: rest =>
      match splitPath rest with
      | [] => [[]]
      | f :: fs => if ch = '/' then [] :: f :: fs else (ch :: f) :: fs

theorem splitPath_ne_nil (s : List Char) : splitPath s ≠ [] := by
  cases s with
  | nil => simp [splitPath]
  | cons ch rest =>
      simp only [splitPath]
      cases splitPath rest with
      | nil => simp
      | cons f fs =>
          by_cases h : ch = '/' <;> simp [h]

/-- Modelled from the spec: `ParseInt32` (utilstrencodings, outside the
source files) — "a non-`m` non-`c` segment cannot be parsed as a signed
32-bit integer" fails; here: an optional sign followed by decimal digits
whose value fits in `int32_t`. -/
def parseInt32Digits (neg : Bool) (digits : List Char) : Option Int :=
  if digits = [] ∨ ¬ (digits.all Char.isDigit) then none
  else
    let v : Int := (if neg then -1 else 1) *
      ((digits.foldl (fun a c => a * 10 + (c.toNat - 48)) 0 : Nat) : Int)
    if -(2 ^ 31) ≤ v ∧ v ≤ 2 ^ 31 - 1 then some v else none

/-- Modelled from the spec: `ParseInt32` entry point (sign handling). -/
def parseInt32 (s : List Char) : Option Int :=
  match s with
  | '-' :: digits => parseInt32Digits true digits
  | '+' :: digits => parseInt32Digits false digits
  | digits => parseInt32Digits false digits

/-- Failure causes of the keypath walk in `PrivKeyDer`.  The C++ reports
every failure as `return false`; the embedding distinguishes the causes,
including the two executions that are not defined C++ behaviour:
`oobRead` models `*fragment.rbegin()` evaluated on an empty fragment
(hdkeystore.cpp:170, an out-of-bounds read), and `invalidParent` models
`parentKey.Derive(...)` evaluated before `parentKey` was ever assigned
(hdkeystore.cpp:205 with a default-constructed `CExtKey`). -/
inductive DerError where
  | oobRead
  | chainSwitch
  | seedMissing
  | parseFail
  | invalidParent
deriving DecidableEq

/-- Child index used at hdkeystore.cpp:205:
`(harden ? 0x80000000 : 0) + nIndex` where `nIndex : int32_t` is converted
to `unsigned int` and the sum wraps modulo `2^32`. -/
def childIndexOf (harden : Bool) (n : Int) : Nat :=
  (((if harden then (2 ^ 31 : Int) else 0) + n).emod (2 ^ 32)).toNat

/-- One iteration of the `BOOST_FOREACH` loop of CHDKeyStore::PrivKeyDer
(hdkeystore.cpp:167-208): strip a trailing `'` (hardened marker), then
dispatch on the fragment (`m` reloads the master key from the seed —
interpreting a seed of exactly `BIP32_EXTKEY_SIZE` bytes as an encoded
extended private key and any other length as raw entropy; `c` fails;
anything else is parsed as an index and derives a child of the working
key). -/
def processFragment (env : CryptoEnv) (st : CHDKeyStore) (chainID : HDChainID)
    (parentKey : Option CExtKey) (fragment : List Char) : Except DerError CExtKey :=
  match fragment.getLast? with
  | none => .error .oobRead
  | some lastc =>
      let harden := lastc = '\''
      let frag := if harden then fragment.dropLast else fragment
      if frag = ['m'] then
        match GetMasterSeed env st chainID with
        | none => .error .seedMissing
        | some masterSeed =>
            .ok (if masterSeed.length = BIP32_EXTKEY_SIZE then
                   env.decodeExt masterSeed
                 else
                   env.setMaster masterSeed)
      else if frag = ['c'] then
        .error .chainSwitch
      else
        match parseInt32 frag with
        | none => .error .parseFail
        | some nIndex =>
            match parentKey with
            | none => .error .invalidParent
            | some p => .ok (env.extPrivDerive p (childIndexOf harden nIndex))

/-- The fragment loop of CHDKeyStore::PrivKeyDer, threading the working
key (`parentKey`), which is unassigned until the first fragment sets it. -/
def derWalk (env : CryptoEnv) (st : CHDKeyStore) (chainID : HDChainID) :
    Option CExtKey → List (List Char) → Except DerError (Option CExtKey)
  | parentKey, [] => .ok parentKey
  | parentKey, f :: fs =>
      match processFragment env st chainID parentKey f with
      | .error e => .error e
      | .ok k => derWalk env st chainID (some k) fs

/-- CHDKeyStore::PrivKeyDer (hdkeystore.cpp:159): split the keypath on
`/` and walk the fragments.  The `.ok none` case (the walk succeeded
without ever assigning the working key) cannot arise because `splitPath`
never returns an empty fragment list; it is mapped to `invalidParent`
(reading the never-assigned `CExtKey` out-value). -/
def PrivKeyDer (env : CryptoEnv) (st : CHDKeyStore) (keypath : List Char)
    (chainID : HDChainID) : Except DerError CExtKey :=
  match derWalk env st chainID none (splitPath keypath) with
  | .error e => .error e
  | .ok none => .error .invalidParent
  | .ok (some k) => .ok k

/-- Result of CHDKeyStore::DeriveHDPubKeyAtIndex, keeping the two C++
failure channels distinct: `fail` is `return false` (the `GetChain`
miss), `thrown` is an escaping `std::runtime_error`. -/
inductive ThrowReason where
  | indexExhausted
  | privDerFailed
  | pubDerFailed
deriving DecidableEq

/-- Observable outcome of `DeriveHDPubKeyAtIndex`. -/
inductive DeriveResult where
  | ok (r : CHDPubKey)
  | fail
  | thrown (reason : ThrowReason)
deriving DecidableEq

/-- Semantics of `boost::replace_all(keypath, "c", itostr(internal))`
(hdkeystore.cpp:236): the pattern and the replacement are both single
characters, so replacing every occurrence is a character map. -/
def materializeKeypath (template : List Char) (internal : Bool) : List Char :=
  template.map (fun ch => if ch = 'c' then (if internal then '1' else '0') else ch)

/-- Mode-selection condition of hdkeystore.cpp:238:
`(internal && !hdChain.internalPubKey.pubkey.IsValid()) || !hdChain.externalPubKey.pubkey.IsValid()`. -/
def usesPrivateDerivation (env : CryptoEnv) (hdChain : CHDChain) (internal : Bool) : Bool :=
  (internal && !(env.pubkeyValid (env.extPubPubkey hdChain.internalPubKey))) ||
    !(env.pubkeyValid (env.extPubPubkey hdChain.externalPubKey))

/-- CHDKeyStore::DeriveHDPubKeyAtIndex (hdkeystore.cpp:225), paired with
the store after the call (the method is `const`: no branch writes a
member map).  The body in source order: `GetChain` first (`return false`
on a miss), then the `nIndex >= 0x80000000` check (`throw`), then
template materialization, then the mode split of line 238. -/
def DeriveHDPubKeyAtIndex (env : CryptoEnv) (st : CHDKeyStore) (chainID : HDChainID)
    (nIndex : Nat) (internal : Bool) : DeriveResult × CHDKeyStore :=
  match GetChain st chainID with
  | none => (.fail, st)
  | some hdChain =>
      if nIndex ≥ 2 ^ 31 then (.thrown .indexExhausted, st)
      else
        if usesPrivateDerivation env hdChain internal then
          match PrivKeyDer env st
              (materializeKeypath hdChain.keypathTemplate internal ++
                ('/' :: Nat.toDigits 10 nIndex) ++ ['\'']) chainID with
          | .error _ => (.thrown .privDerFailed, st)
          | .ok extKeyOut =>
              (.ok { pubkey := env.extPubPubkey (env.neuter extKeyOut), nChild := nIndex,
                     chainID := chainID,
                     keypath := materializeKeypath hdChain.keypathTemplate internal ++
                       ('/' :: Nat.toDigits 10 nIndex) ++ ['\''],
                     internal := internal }, st)
        else
          match env.extPubDerive
              (if internal then hdChain.internalPubKey else hdChain.externalPubKey) nIndex with
          | none => (.thrown .pubDerFailed, st)
          | some childKey =>
              (.ok { pubkey := env.extPubPubkey childKey, nChild := nIndex,
                     chainID := chainID,
                     keypath := materializeKeypath hdChain.keypathTemplate internal ++
                       ('/' :: Nat.toDigits 10 nIndex),
                     internal := internal }, st)

/-- Collection loop of CHDKeyStore::GetNextChildIndex (hdkeystore.cpp:272):
the `nChild` values of all catalog records matching `(chainID, internal)`. -/
def collectIndices (st : CHDKeyStore) (chainID : HDChainID) (internal : Bool) : List Nat :=
  (st.mapHDPubKeys.filter
      (fun p => (p.2.chainID == chainID) && (p.2.internal == internal))).map
    (fun p => p.2.nChild)

/-- Scan loop of CHDKeyStore::GetNextChildIndex (hdkeystore.cpp:277):
`for (i = 0; i < 0x80000000; i++) if (i not in vIndices) return i;`
falling through to `return 0`.  `fuel` counts the remaining iterations. -/
def firstGapAux (vIndices : List Nat) : Nat → Nat → Nat
  | _, 0 => 0
  | i, fuel + 1 => if i ∈ vIndices then firstGapAux vIndices (i + 1) fuel else i

/-- CHDKeyStore::GetNextChildIndex (hdkeystore.cpp:265). -/
def GetNextChildIndex (st : CHDKeyStore) (chainID : HDChainID) (internal : Bool) : Nat :=
  firstGapAux (collectIndices st chainID internal) 0 (2 ^ 31)

/-- Spec-side reading of the catalog scan: some record of the catalog
matches `(chainID, internal)` and carries child index `j`. -/
def hasRecordAt (st : CHDKeyStore) (chainID : HDChainID) (internal : Bool) (j : Nat) : Prop :=
  ∃ p ∈ st.mapHDPubKeys, p.2.chainID = chainID ∧ p.2.internal = internal ∧ p.2.nChild = j

instance (st : CHDKeyStore) (chainID : HDChainID) (internal : Bool) (j : Nat) :
    Decidable (hasRecordAt st chainID internal j) := by
  unfold hasRecordAt
  infer_instance

theorem mem_collectIndices_iff (st : CHDKeyStore) (chainID : HDChainID) (internal : Bool)
    (j : Nat) : j ∈ collectIndices st chainID internal ↔ hasRecordAt st chainID internal j := by
  unfold collectIndices hasRecordAt
  constructor
  · intro hj
    obtain ⟨p, hp, hpj⟩ := List.mem_map.mp hj
    obtain ⟨hmem, hcond⟩ := List.mem_filter.mp hp
    simp only [Bool.and_eq_true, beq_iff_eq] at hcond
    exact ⟨p, hmem, hcond.1, hcond.2, hpj⟩
  · rintro ⟨p, hmem, h1, h2, h3⟩
    refine List.mem_map.mpr ⟨p, List.mem_filter.mpr ⟨hmem, ?_⟩, h3⟩
    simp [h1, h2]

instance {e a : Type} [DecidableEq e] [DecidableEq a] : DecidableEq (Except e a) := fun x y =>
  match x, y with
  | .ok u, .ok v => if h : u = v then .isTrue (by rw [h]) else .isFalse (by simp [h])
  | .error u, .error v => if h : u = v then .isTrue (by rw [h]) else .isFalse (by simp [h])
  | .ok _, .error _ => .isFalse (by simp)
  | .error _, .ok _ => .isFalse (by simp)

/-- The disjointness invariant of the spec's seed vault, as an executable
check: no ChainID of the plaintext map also appears in the crypted map. -/
def seedMapsDisjoint (st : CHDKeyStore) : Bool :=
  st.mapHDMasterSeeds.all (fun p => (mapFind p.1 st.mapHDCryptedMasterSeeds).isNone)

/-- Concrete instantiation of the abstract collaborators, used to
exercise the operations on closed inputs.  The key arithmetic is
arbitrary; only the call structure of the store is under test. -/
def trivEnv : CryptoEnv where
  encryptSeed := fun s _ => some s
  decryptSeed := fun b _ => some b
  setMaster := fun s => s.sum + 1000
  decodeExt := fun s => s.sum + 2000
  extPrivDerive := fun p n => p * 100000 + n
  neuter := fun k => k + 1
  extPubDerive := fun p n => some (p * 100000 + n + 3)
  extPubPubkey := fun p => p
  pubkeyValid := fun k => decide (0 < k)
  getID := fun p => p + 13

/-- A chain with valid external (5) and internal (6) root keys under
`trivEnv` (where validity is positivity). -/
def chainBoth : CHDChain :=
  ⟨9, ['m', '/', '4', '4', '\'', '/', '0', '\'', '/', 'c'], 5, 6⟩

/-- The same chain with an invalid internal root key (0). -/
def chainNoInternal : CHDChain :=
  ⟨9, ['m', '/', '4', '4', '\'', '/', '0', '\'', '/', 'c'], 5, 0⟩

/-- A plaintext store holding chain 9 with seed `[1, 2, 3]`. -/
def stBoth : CHDKeyStore :=
  ⟨[(9, [1, 2, 3])], [], [], [(9, chainBoth)], false⟩

/-- A plaintext store whose chain 9 lacks a valid internal root. -/
def stNoInternal : CHDKeyStore :=
  ⟨[(9, [1, 2, 3])], [], [], [(9, chainNoInternal)], false⟩

/-- A store with no chains at all. -/
def stEmpty : CHDKeyStore := ⟨[], [], [], [], false⟩

theorem derWalk_error_of_mem_nil (env : CryptoEnv) (st : CHDKeyStore) (chainID : HDChainID) :
    ∀ (frags : List (List Char)) (parentKey : Option CExtKey), [] ∈ frags →
      ∃ e, derWalk env st chainID parentKey frags = .error e := by
  intro frags
  induction frags with
  | nil => intro parentKey h; cases h
  | cons f fs ih =>
      intro parentKey h
      rcases List.mem_cons.mp h with hf | hfs
      · subst hf
        exact ⟨.oobRead, rfl⟩
      · cases hp : processFragment env st chainID parentKey f with
        | error e => exact ⟨e, by simp [derWalk, hp]⟩
        | ok k =>
            obtain ⟨e, he⟩ := ih (some k) hfs
            exact ⟨e, by simp [derWalk, hp, he]⟩

/-- C10: a keypath with an empty `/`-separated segment (the empty path, a
trailing `/`, `m//0`, ...) makes the walk of `PrivKeyDer` evaluate
`*fragment.rbegin()` on an empty fragment — an out-of-bounds read — so
the total embedding returns an error (never a value) on every such
input. -/
theorem privKeyDer_empty_fragment_errors (env : CryptoEnv) (st : CHDKeyStore)
    (keypath : List Char) (chainID : HDChainID) (h : [] ∈ splitPath keypath) :
    ∃ e, PrivKeyDer env st keypath chainID = .error e := by
  obtain ⟨e, he⟩ := derWalk_error_of_mem_nil env st chainID (splitPath keypath) none h
  exact ⟨e, by simp [PrivKeyDer, he]⟩

theorem privKeyDer_empty_fragment_errors_witness :
    ([] ∈ splitPath ['m', '/', '/', '0']) ∧
      ∃ e, PrivKeyDer trivEnv stBoth ['m', '/', '/', '0'] 9 = Except.error e :=
  ⟨by decide, privKeyDer_empty_fragment_errors trivEnv stBoth ['m', '/', '/', '0'] 9 (by decide)⟩

/-- C7: a seed inserted by `AddMasterSeed` while the store is plaintext
(`IsCrypted()` false) is returned exactly by a subsequent
`GetMasterSeed` on the same ChainID; `mapInsert` makes the most recent
insertion win on overwrite. -/
theorem addMasterSeed_getMasterSeed_roundtrip (env : CryptoEnv) (st : CHDKeyStore)
    (chainID : HDChainID) (seed : CKeyingMaterial) (h : st.isCrypted = false) :
    (AddMasterSeed env st chainID seed).1 = true ∧
      GetMasterSeed env (AddMasterSeed env st chainID seed).2 chainID = some seed := by
  constructor
  · simp [AddMasterSeed, h]
  · simp [AddMasterSeed, GetMasterSeed, h, mapFind_mapInsert_self]

theorem addMasterSeed_getMasterSeed_roundtrip_witness :
    (AddMasterSeed trivEnv stBoth 3 [9, 9]).1 = true ∧
      GetMasterSeed trivEnv (AddMasterSeed trivEnv stBoth 3 [9, 9]).2 3 = some [9, 9] :=
  addMasterSeed_getMasterSeed_roundtrip trivEnv stBoth 3 [9, 9] rfl

/-- C8: when the walk of `PrivKeyDer` reaches the `m` segment and obtains
a master seed, a seed of length exactly `BIP32_EXTKEY_SIZE` (74) is
decoded directly as an encoded extended private key and any other length
is fed to BIP32 master-key-from-seed: the dual interpretation is decided
solely by the length. -/
theorem seed_length_dual_interpretation (env : CryptoEnv) (st : CHDKeyStore)
    (chainID : HDChainID) (seed : CKeyingMaterial)
    (h : GetMasterSeed env st chainID = some seed) :
    PrivKeyDer env st ['m'] chainID =
      .ok (if seed.length = BIP32_EXTKEY_SIZE then env.decodeExt seed
           else env.setMaster seed) := by
  simp [PrivKeyDer, splitPath, derWalk, processFragment, h]

theorem seed_length_dual_interpretation_witness :
    (PrivKeyDer trivEnv ⟨[(9, List.replicate 74 1)], [], [], [], false⟩ ['m'] 9 =
        .ok (trivEnv.decodeExt (List.replicate 74 1))) ∧
      (PrivKeyDer trivEnv ⟨[(9, List.replicate 73 1)], [], [], [], false⟩ ['m'] 9 =
        .ok (trivEnv.setMaster (List.replicate 73 1))) ∧
      (PrivKeyDer trivEnv ⟨[(9, List.replicate 75 1)], [], [], [], false⟩ ['m'] 9 =
        .ok (trivEnv.setMaster (List.replicate 75 1))) := by
  refine ⟨?_, ?_, ?_⟩
  · have := seed_length_dual_interpretation trivEnv
      ⟨[(9, List.replicate 74 1)], [], [], [], false⟩ 9 (List.replicate 74 1) (by decide)
    simpa using this
  · have := seed_length_dual_interpretation trivEnv
      ⟨[(9, List.replicate 73 1)], [], [], [], false⟩ 9 (List.replicate 73 1) (by decide)
    simpa using this
  · have := seed_length_dual_interpretation trivEnv
      ⟨[(9, List.replicate 75 1)], [], [], [], false⟩ 9 (List.replicate 75 1) (by decide)
    simpa using this

/-- C9: `DeriveHDPubKeyAtIndex` never modifies the store — on every
input, failing ones included (an unregistered chainID among them), the
store after the call is the store before it, so the catalog, the chain
registry and both seed maps are unchanged; insertion into the catalog is
done only by the separate `LoadHDPubKey`, which stores the record under
`GetID` of its pubkey and touches no other map. -/
theorem deriveHDPubKeyAtIndex_frame (env : CryptoEnv) (st : CHDKeyStore)
    (chainID : HDChainID) (nIndex : Nat) (internal : Bool) (pk : CHDPubKey) :
    (DeriveHDPubKeyAtIndex env st chainID nIndex internal).2 = st ∧
      mapFind (env.getID pk.pubkey) (LoadHDPubKey env st pk).2.mapHDPubKeys = some pk ∧
      (LoadHDPubKey env st pk).2.mapChains = st.mapChains ∧
      (LoadHDPubKey env st pk).2.mapHDMasterSeeds = st.mapHDMasterSeeds ∧
      (LoadHDPubKey env st pk).2.mapHDCryptedMasterSeeds = st.mapHDCryptedMasterSeeds := by
  refine ⟨?_, ?_, rfl, rfl, rfl⟩
  · unfold DeriveHDPubKeyAtIndex
    split
    · rfl
    · split
      · rfl
      · split
        · split <;> rfl
        · split <;> rfl
  · simp [LoadHDPubKey, mapFind_mapInsert_self]

theorem firstGapAux_spec (l : List Nat) :
    ∀ (fuel i : Nat), (∃ j, i ≤ j ∧ j < i + fuel ∧ j ∉ l) →
      i ≤ firstGapAux l i fuel ∧ firstGapAux l i fuel < i + fuel ∧
        firstGapAux l i fuel ∉ l ∧
        ∀ j, i ≤ j → j < firstGapAux l i fuel → j ∈ l := by
  intro fuel
  induction fuel with
  | zero =>
      intro i ⟨j, h1, h2, _⟩
      omega
  | succ fuel ih =>
      intro i ⟨j, hij, hjb, hjl⟩
      by_cases hi : i ∈ l
      · have hji : j ≠ i := fun he => hjl (he ▸ hi)
        have hrec := ih (i + 1) ⟨j, by omega, by omega, hjl⟩
        obtain ⟨r1, r2, r3, r4⟩ := hrec
        rw [show firstGapAux l i (fuel + 1) = firstGapAux l (i + 1) fuel from by
          simp [firstGapAux, hi]]
        refine ⟨by omega, by omega, r3, ?_⟩
        intro j0 hj0 hj0g
        by_cases he : j0 = i
        · exact he ▸ hi
        · exact r4 j0 (by omega) hj0g
      · rw [show firstGapAux l i (fuel + 1) = i from by simp [firstGapAux, hi]]
        exact ⟨Nat.le_refl i, by omega, hi, fun j0 h1 h2 => absurd (by omega : i ≤ j0 ∧ j0 < i) (by omega)⟩

/-- C4: `GetNextChildIndex` returns the least `i < 2^31` such that no
catalog record with matching chainID and internal flag has `nChild = i`
(gap-filling), provided such an `i` exists. -/
theorem getNextChildIndex_min_unused (st : CHDKeyStore) (chainID : HDChainID)
    (internal : Bool)
    (h : ∃ j, j < 2 ^ 31 ∧ ¬ hasRecordAt st chainID internal j) :
    GetNextChildIndex st chainID internal < 2 ^ 31 ∧
      ¬ hasRecordAt st chainID internal (GetNextChildIndex st chainID internal) ∧
      ∀ j < GetNextChildIndex st chainID internal, hasRecordAt st chainID internal j := by
  obtain ⟨j, hj1, hj2⟩ := h
  have hj2' : j ∉ collectIndices st chainID internal :=
    fun hm => hj2 ((mem_collectIndices_iff st chainID internal j).mp hm)
  have hs := firstGapAux_spec (collectIndices st chainID internal) (2 ^ 31) 0
    ⟨j, Nat.zero_le j, by omega, hj2'⟩
  obtain ⟨_, h2, h3, h4⟩ := hs
  unfold GetNextChildIndex
  refine ⟨by omega, ?_, ?_⟩
  · intro hr
    exact h3 ((mem_collectIndices_iff st chainID internal _).mpr hr)
  · intro j0 hj0
    exact (mem_collectIndices_iff st chainID internal j0).mp
      (h4 j0 (Nat.zero_le j0) hj0)

/-- Catalog with records at child indices 0 and 2 for `(chainID 0, external)`. -/
def stGap02 : CHDKeyStore :=
  ⟨[], [], [(1, ⟨1, 0, 0, [], false⟩), (2, ⟨2, 2, 0, [], false⟩)], [], false⟩

/-- Catalog with records at child indices 0, 1, 2 and 100. -/
def stGap0123 : CHDKeyStore :=
  ⟨[], [],
   [(1, ⟨1, 0, 0, [], false⟩), (2, ⟨2, 1, 0, [], false⟩),
    (3, ⟨3, 2, 0, [], false⟩), (4, ⟨4, 100, 0, [], false⟩)], [], false⟩

theorem getNextChildIndex_min_unused_witness :
    (GetNextChildIndex stGap02 0 false = 1 ∧
        ¬ hasRecordAt stGap02 0 false (GetNextChildIndex stGap02 0 false) ∧
        ∀ j < GetNextChildIndex stGap02 0 false, hasRecordAt stGap02 0 false j) ∧
      GetNextChildIndex stGap0123 0 false = 3 := by
  have happ := getNextChildIndex_min_unused stGap02 0 false ⟨1, by decide, by decide⟩
  exact ⟨⟨by decide, happ.2.1, happ.2.2⟩, by decide⟩

theorem encryptSeedsLoop_find_of_notmem (env : CryptoEnv) (cid : HDChainID) :
    ∀ (entries : List (HDChainID × CKeyingMaterial)) (m : List (HDChainID × List Nat)),
      cid ∉ entries.map Prod.fst →
      mapFind cid (encryptSeedsLoop env entries m).2 = mapFind cid m := by
  intro entries
  induction entries with
  | nil => intro m _; rfl
  | cons p rest ih =>
      obtain ⟨c0, s0⟩ := p
      intro m hmem
      have hne : c0 ≠ cid := fun he => hmem (by simp [he])
      have hrest : cid ∉ rest.map Prod.fst := fun hr => hmem (by simp [hr])
      cases he : env.encryptSeed s0 c0 with
      | none => simp [encryptSeedsLoop, he]
      | some blob =>
          rw [show (encryptSeedsLoop env ((c0, s0) :: rest) m) =
              encryptSeedsLoop env rest (mapInsert c0 blob m) from by
            simp [encryptSeedsLoop, he]]
          rw [ih (mapInsert c0 blob m) hrest]
          exact mapFind_mapInsert_ne blob m hne

theorem encryptSeedsLoop_find (env : CryptoEnv) (cid : HDChainID) (seed : CKeyingMaterial) :
    ∀ (entries : List (HDChainID × CKeyingMaterial)) (m : List (HDChainID × List Nat)),
      (entries.map Prod.fst).Nodup →
      (encryptSeedsLoop env entries m).1 = true →
      mapFind cid entries = some seed →
      ∃ blob, env.encryptSeed seed cid = some blob ∧
        mapFind cid (encryptSeedsLoop env entries m).2 = some blob := by
  intro entries
  induction entries with
  | nil => intro m _ _ hfind; simp [mapFind] at hfind
  | cons p rest ih =>
      obtain ⟨c0, s0⟩ := p
      intro m hnd hok hfind
      have hnd' : (rest.map Prod.fst).Nodup := (List.nodup_cons.mp hnd).2
      have hc0 : c0 ∉ rest.map Prod.fst := (List.nodup_cons.mp hnd).1
      by_cases hc : c0 = cid
      · subst hc
        have hseed : s0 = seed := by simpa [mapFind] using hfind
        subst hseed
        cases he : env.encryptSeed s0 c0 with
        | none => simp [encryptSeedsLoop, he] at hok
        | some blob =>
            refine ⟨blob, rfl, ?_⟩
            rw [show (encryptSeedsLoop env ((c0, s0) :: rest) m) =
                encryptSeedsLoop env rest (mapInsert c0 blob m) from by
              simp [encryptSeedsLoop, he]]
            rw [encryptSeedsLoop_find_of_notmem env c0 rest (mapInsert c0 blob m) hc0]
            exact mapFind_mapInsert_self c0 blob m
      · have hfind' : mapFind cid rest = some seed := by
          simpa [mapFind, hc] using hfind
        cases he : env.encryptSeed s0 c0 with
        | none => simp [encryptSeedsLoop, he] at hok
        | some blob =>
            have hok' : (encryptSeedsLoop env rest (mapInsert c0 blob m)).1 = true := by
              simpa [encryptSeedsLoop, he] using hok
            have := ih (mapInsert c0 blob m) hnd' hok' hfind'
            simpa [encryptSeedsLoop, he] using this

/-- C5: after a successful `EncryptSeeds()` the plaintext seed map is
empty, and every `(chainID, seed)` pair stored before the call is
retrievable through `GetCryptedMasterSeed` (the store being crypted) and
decrypts back to the original seed, assuming the encryption collaborator
satisfies the decrypt-after-encrypt round trip the spec assigns to it. -/
theorem encryptSeeds_roundtrip (env : CryptoEnv) (st : CHDKeyStore)
    (chainID : HDChainID) (seed : CKeyingMaterial)
    (hnd : (st.mapHDMasterSeeds.map Prod.fst).Nodup)
    (hcr : st.isCrypted = true)
    (hrt : ∀ s c b, env.encryptSeed s c = some b → env.decryptSeed b c = some s)
    (hok : (EncryptSeeds env st).1 = true)
    (hfind : mapFind chainID st.mapHDMasterSeeds = some seed) :
    (EncryptSeeds env st).2.mapHDMasterSeeds = [] ∧
      ∃ blob, GetCryptedMasterSeed (EncryptSeeds env st).2 chainID = some blob ∧
        env.decryptSeed blob chainID = some seed := by
  unfold EncryptSeeds at hok ⊢
  rcases hl : encryptSeedsLoop env st.mapHDMasterSeeds st.mapHDCryptedMasterSeeds with ⟨ok, crypted⟩
  cases ok with
  | false =>
      rw [hl] at hok
      exact Bool.noConfusion hok
  | true =>
      refine ⟨rfl, ?_⟩
      obtain ⟨blob, hb, hfb⟩ := encryptSeedsLoop_find env chainID seed st.mapHDMasterSeeds
        st.mapHDCryptedMasterSeeds hnd (by rw [hl]) hfind
      rw [hl] at hfb
      refine ⟨blob, ?_, hrt seed chainID blob hb⟩
      simp only [GetCryptedMasterSeed, hcr]
      simpa using hfb

/-- Crypted store with one plaintext seed pending encryption. -/
def stPending : CHDKeyStore := ⟨[(3, [7, 8])], [], [], [], true⟩

theorem encryptSeeds_roundtrip_witness :
    (EncryptSeeds trivEnv stPending).2.mapHDMasterSeeds = [] ∧
      ∃ blob, GetCryptedMasterSeed (EncryptSeeds trivEnv stPending).2 3 = some blob ∧
        trivEnv.decryptSeed blob 3 = some [7, 8] :=
  encryptSeeds_roundtrip trivEnv stPending 3 [7, 8] (by decide) rfl
    (fun _ _ _ h => h.symm) (by decide) (by decide)

/-- Wrapper that succeeds only for ChainID 0, to exhibit an aborted
`EncryptSeeds`. -/
def envFailOn1 : CryptoEnv :=
  { trivEnv with encryptSeed := fun s c => if c = 0 then some s else none }

/-- Plaintext store holding seeds for ChainIDs 0 and 1. -/
def stTwoSeeds : CHDKeyStore := ⟨[(0, [1]), (1, [2])], [], [], [], false⟩

/-- C2 counterexample: an `EncryptSeeds` whose second wrap fails aborts
after having inserted ChainID 0 into the crypted map while the plaintext
map is left intact, so ChainID 0 ends up in both seed maps — the claimed
disjointness is not preserved by every vault operation. -/
theorem seed_vault_disjointness_cex :
    (EncryptSeeds envFailOn1 stTwoSeeds).1 = false ∧
      seedMapsDisjoint (EncryptSeeds envFailOn1 stTwoSeeds).2 = false := by decide

/-- C2 amended: disjointness of the two seed maps is guaranteed only
when the map not matching the current mode is empty — `AddMasterSeed`
preserves it in a pure plaintext state (crypted map empty, not crypted)
and in a pure crypted state (plaintext map empty), `AddCryptedMasterSeed`
preserves it when the plaintext map is empty, and a fully successful
`EncryptSeeds` establishes it by clearing the plaintext map; an
`AddCryptedMasterSeed` of a ChainID present in the plaintext map, or an
`EncryptSeeds` aborted by a failing wrap, can leave a ChainID in both
maps. -/
theorem seed_vault_disjointness_amended (env : CryptoEnv) (st : CHDKeyStore)
    (chainID : HDChainID) (seed : CKeyingMaterial) (blob : List Nat) :
    (st.isCrypted = false → st.mapHDCryptedMasterSeeds = [] →
      seedMapsDisjoint (AddMasterSeed env st chainID seed).2 = true) ∧
    (st.isCrypted = true → st.mapHDMasterSeeds = [] →
      seedMapsDisjoint (AddMasterSeed env st chainID seed).2 = true) ∧
    (st.mapHDMasterSeeds = [] →
      seedMapsDisjoint (AddCryptedMasterSeed st chainID blob).2 = true) ∧
    ((EncryptSeeds env st).1 = true →
      seedMapsDisjoint (EncryptSeeds env st).2 = true) := by
  refine ⟨?_, ?_, ?_, ?_⟩
  · intro h1 h2
    simp [AddMasterSeed, h1, seedMapsDisjoint, h2, mapFind, List.all_eq_true]
  · intro h1 h2
    rw [AddMasterSeed, h1]
    cases env.encryptSeed seed chainID <;>
      simp [seedMapsDisjoint, h2, List.all_eq_true]
  · intro h1
    simp [AddCryptedMasterSeed, seedMapsDisjoint, h1, List.all_eq_true]
  · intro hok
    unfold EncryptSeeds at hok ⊢
    rcases hl : encryptSeedsLoop env st.mapHDMasterSeeds st.mapHDCryptedMasterSeeds with ⟨ok, crypted⟩
    cases ok with
    | false =>
        rw [hl] at hok
        exact Bool.noConfusion hok
    | true => simp [seedMapsDisjoint]

/-- Pure plaintext store (crypted map empty). -/
def stPurePlain : CHDKeyStore := ⟨[(0, [3])], [], [], [], false⟩

/-- Pure crypted store (plaintext map empty). -/
def stPureCrypted : CHDKeyStore := ⟨[], [(0, [4])], [], [], true⟩

theorem seed_vault_disjointness_amended_witness :
    seedMapsDisjoint (AddMasterSeed trivEnv stPurePlain 5 [1]).2 = true ∧
      seedMapsDisjoint (AddMasterSeed trivEnv stPureCrypted 5 [1]).2 = true ∧
      seedMapsDisjoint (AddCryptedMasterSeed stPureCrypted 5 [2]).2 = true ∧
      seedMapsDisjoint (EncryptSeeds trivEnv stPurePlain).2 = true :=
  ⟨(seed_vault_disjointness_amended trivEnv stPurePlain 5 [1] [2]).1 rfl rfl,
   (seed_vault_disjointness_amended trivEnv stPureCrypted 5 [1] [2]).2.1 rfl rfl,
   (seed_vault_disjointness_amended trivEnv stPureCrypted 5 [1] [2]).2.2.1 rfl,
   (seed_vault_disjointness_amended trivEnv stPurePlain 5 [1] [2]).2.2.2 (by decide)⟩

/-- C1: for a registered chain and `nIndex < 2^31`,
`DeriveHDPubKeyAtIndex` selects the derivation mode exactly as at
hdkeystore.cpp:238: when internal is requested without a valid internal
root, or the external root is invalid, it materializes the template
(`c` → `"0"`/`"1"`), appends the hardened `/<nIndex>'`, derives the
extended private key from the seed and neuters it; otherwise it appends
the non-hardened `/<nIndex>` and derives by public CKD from the internal
or external root as requested; both output records carry the derived
pubkey, the chainID, `nChild = nIndex`, the internal flag and the
materialized keypath. -/
theorem deriveHDPubKeyAtIndex_mode_selection (env : CryptoEnv) (st : CHDKeyStore)
    (chainID : HDChainID) (nIndex : Nat) (internal : Bool) (hdChain : CHDChain)
    (hchain : GetChain st chainID = some hdChain) (hidx : nIndex < 2 ^ 31) :
    (∀ extKeyOut,
        usesPrivateDerivation env hdChain internal = true →
        PrivKeyDer env st (materializeKeypath hdChain.keypathTemplate internal ++
            ('/' :: Nat.toDigits 10 nIndex) ++ ['\'']) chainID = .ok extKeyOut →
        (DeriveHDPubKeyAtIndex env st chainID nIndex internal).1 =
          .ok ⟨env.extPubPubkey (env.neuter extKeyOut), nIndex, chainID,
               materializeKeypath hdChain.keypathTemplate internal ++
                 ('/' :: Nat.toDigits 10 nIndex) ++ ['\''], internal⟩) ∧
    (∀ childKey,
        usesPrivateDerivation env hdChain internal = false →
        env.extPubDerive (if internal then hdChain.internalPubKey else hdChain.externalPubKey)
            nIndex = some childKey →
        (DeriveHDPubKeyAtIndex env st chainID nIndex internal).1 =
          .ok ⟨env.extPubPubkey childKey, nIndex, chainID,
               materializeKeypath hdChain.keypathTemplate internal ++
                 ('/' :: Nat.toDigits 10 nIndex), internal⟩) := by
  have hnot : ¬ (nIndex ≥ 2 ^ 31) := by omega
  constructor
  · intro extKeyOut hpriv hder
    simp only [DeriveHDPubKeyAtIndex, hchain]
    rw [if_neg hnot, if_pos hpriv, hder]
  · intro childKey hpub hder
    have hpriv : ¬ (usesPrivateDerivation env hdChain internal = true) := by
      simp [hpub]
    simp only [DeriveHDPubKeyAtIndex, hchain]
    rw [if_neg hnot, if_neg hpriv, hder]

/-- Hardened private-mode keypath for chain 9 of `stNoInternal` at
index 7 (materialized internal template plus hardened final segment). -/
def pathPriv7 : List Char :=
  materializeKeypath chainNoInternal.keypathTemplate true ++
    ('/' :: Nat.toDigits 10 7) ++ ['\'']

/-- The extended private key the walk produces on `pathPriv7`. -/
def ekPriv7 : CExtKey := (PrivKeyDer trivEnv stNoInternal pathPriv7 9).toOption.getD 0

theorem deriveHDPubKeyAtIndex_mode_selection_witness :
    ((DeriveHDPubKeyAtIndex trivEnv stBoth 9 7 false).1 =
        DeriveResult.ok ⟨trivEnv.extPubPubkey 500010, 7, 9,
          materializeKeypath chainBoth.keypathTemplate false ++
            ('/' :: Nat.toDigits 10 7), false⟩) ∧
      ((DeriveHDPubKeyAtIndex trivEnv stNoInternal 9 7 true).1 =
        DeriveResult.ok ⟨trivEnv.extPubPubkey (trivEnv.neuter ekPriv7), 7, 9,
          pathPriv7, true⟩) :=
  ⟨(deriveHDPubKeyAtIndex_mode_selection trivEnv stBoth 9 7 false chainBoth rfl
      (by decide)).2 500010 (by decide) (by decide),
   (deriveHDPubKeyAtIndex_mode_selection trivEnv stNoInternal 9 7 true chainNoInternal rfl
      (by decide)).1 ekPriv7 (by decide) (by decide)⟩

/-- C3 counterexample: with a chainID that is NOT registered and
`nIndex = 0x80000000`, `DeriveHDPubKeyAtIndex` fails through the
boolean-return channel of the failed chain lookup (`UnknownChain`),
not with `IndexExhausted`: the index bound is checked after the chain
lookup, not as step 1. -/
theorem index_exhausted_cex :
    (DeriveHDPubKeyAtIndex trivEnv stEmpty 0 (2 ^ 31) false).1 = DeriveResult.fail ∧
      (DeriveHDPubKeyAtIndex trivEnv stEmpty 0 (2 ^ 31) false).1 ≠
        DeriveResult.thrown ThrowReason.indexExhausted := by decide

/-- C3 amended: for a REGISTERED chain, every `nIndex ≥ 2^31` makes
`DeriveHDPubKeyAtIndex` fail with `IndexExhausted` — but the check runs
after the chain lookup (an unregistered chainID fails with the chain
lookup's `false` return for every index), and the `IndexExhausted`
failure escapes as a thrown `std::runtime_error`, not the method's
boolean return; `nIndex = 0x7FFFFFFF` with a valid chain (successful
public CKD) derives successfully. -/
theorem index_exhausted_behavior (env : CryptoEnv) (st : CHDKeyStore)
    (chainID : HDChainID) (nIndex : Nat) (internal : Bool) (hdChain : CHDChain)
    (childKey : CExtPubKey) :
    (GetChain st chainID = some hdChain → 2 ^ 31 ≤ nIndex →
      (DeriveHDPubKeyAtIndex env st chainID nIndex internal).1 =
        DeriveResult.thrown ThrowReason.indexExhausted) ∧
    (GetChain st chainID = none →
      (DeriveHDPubKeyAtIndex env st chainID nIndex internal).1 = DeriveResult.fail) ∧
    (GetChain st chainID = some hdChain →
      usesPrivateDerivation env hdChain internal = false →
      env.extPubDerive (if internal then hdChain.internalPubKey else hdChain.externalPubKey)
          0x7FFFFFFF = some childKey →
      ∃ r, (DeriveHDPubKeyAtIndex env st chainID 0x7FFFFFFF internal).1 =
        DeriveResult.ok r) := by
  refine ⟨?_, ?_, ?_⟩
  · intro hchain hge
    simp only [DeriveHDPubKeyAtIndex, hchain]
    rw [if_pos hge]
  · intro hchain
    simp only [DeriveHDPubKeyAtIndex, hchain]
  · intro hchain hpub hder
    have hlt : ¬ ((0x7FFFFFFF : Nat) ≥ 2 ^ 31) := by norm_num
    have hpriv : ¬ (usesPrivateDerivation env hdChain internal = true) := by
      simp [hpub]
    refine ⟨⟨env.extPubPubkey childKey, 0x7FFFFFFF, chainID,
      materializeKeypath hdChain.keypathTemplate internal ++
        ('/' :: Nat.toDigits 10 0x7FFFFFFF), internal⟩, ?_⟩
    simp only [DeriveHDPubKeyAtIndex, hchain]
    rw [if_neg hlt, if_neg hpriv, hder]

theorem index_exhausted_behavior_witness :
    ((DeriveHDPubKeyAtIndex trivEnv stBoth 9 (2 ^ 31) false).1 =
        DeriveResult.thrown ThrowReason.indexExhausted) ∧
      ((DeriveHDPubKeyAtIndex trivEnv stEmpty 9 5 false).1 = DeriveResult.fail) ∧
      (∃ r, (DeriveHDPubKeyAtIndex trivEnv stBoth 9 0x7FFFFFFF false).1 =
        DeriveResult.ok r) :=
  ⟨(index_exhausted_behavior trivEnv stBoth 9 (2 ^ 31) false chainBoth 0).1 rfl (by norm_num),
   (index_exhausted_behavior trivEnv stEmpty 9 5 false chainBoth 0).2.1 rfl,
   (index_exhausted_behavior trivEnv stBoth 9 0x7FFFFFFF false chainBoth
      (5 * 100000 + 0x7FFFFFFF + 3)).2.2 rfl (by decide) (by decide)⟩

theorem derWalk_error_of_mem (env : CryptoEnv) (st : CHDKeyStore) (chainID : HDChainID)
    (bad : List Char)
    (hbad : ∀ parentKey, ∃ e, processFragment env st chainID parentKey bad = .error e) :
    ∀ (frags : List (List Char)) (parentKey : Option CExtKey), bad ∈ frags →
      ∃ e, derWalk env st chainID parentKey frags = .error e := by
  intro frags
  induction frags with
  | nil => intro parentKey h; cases h
  | cons f fs ih =>
      intro parentKey h
      rcases List.mem_cons.mp h with hf | hfs
      · subst hf
        obtain ⟨e, he⟩ := hbad parentKey
        exact ⟨e, by simp [derWalk, he]⟩
      · cases hp : processFragment env st chainID parentKey f with
        | error e => exact ⟨e, by simp [derWalk, hp]⟩
        | ok k =>
            obtain ⟨e, he⟩ := ih (some k) hfs
            exact ⟨e, by simp [derWalk, hp, he]⟩

/-- C6 counterexample: with a seed available, the walk of `PrivKeyDer`
on `"m/m"` — an `m` segment at position 1 — does NOT fail: the second
`m` simply reloads the master key and the derivation succeeds. -/
theorem keypath_m_position_cex :
    PrivKeyDer trivEnv stBoth ['m', '/', 'm'] 9 =
      Except.ok (trivEnv.setMaster [1, 2, 3]) := by decide

/-- C6 amended: the walk of `PrivKeyDer` fails whenever it meets the
segment `c` (template not materialized), but an `m` segment at a
position other than 0 is NOT a failure: the code has no position check
and every `m` segment (seed available) just reloads the master key, as
on the path `"m/m"`. -/
theorem keypath_walk_failures_amended (env : CryptoEnv) (st : CHDKeyStore)
    (chainID : HDChainID) (keypath : List Char) (seed : CKeyingMaterial) :
    (['c'] ∈ splitPath keypath → ∃ e, PrivKeyDer env st keypath chainID = .error e) ∧
    (GetMasterSeed env st chainID = some seed →
      PrivKeyDer env st ['m', '/', 'm'] chainID =
        .ok (if seed.length = BIP32_EXTKEY_SIZE then env.decodeExt seed
             else env.setMaster seed)) := by
  constructor
  · intro hmem
    obtain ⟨e, he⟩ := derWalk_error_of_mem env st chainID ['c']
      (fun parentKey => ⟨.chainSwitch, rfl⟩) (splitPath keypath) none hmem
    exact ⟨e, by simp [PrivKeyDer, he]⟩
  · intro hseed
    simp [PrivKeyDer, splitPath, derWalk, processFragment, hseed]

theorem keypath_walk_failures_amended_witness :
    (∃ e, PrivKeyDer trivEnv stBoth ['m', '/', 'c', '/', '0'] 9 = Except.error e) ∧
      PrivKeyDer trivEnv stBoth ['m', '/', 'm'] 9 =
        .ok (if ([1, 2, 3] : List Nat).length = BIP32_EXTKEY_SIZE then
               trivEnv.decodeExt [1, 2, 3]
             else trivEnv.setMaster [1, 2, 3]) :=
  ⟨(keypath_walk_failures_amended trivEnv stBoth 9 ['m', '/', 'c', '/', '0'] [1, 2, 3]).1
      (by decide),
   (keypath_walk_failures_amended trivEnv stBoth 9 ['m', '/', 'c', '/', '0'] [1, 2, 3]).2
      (by decide)⟩
